import Mathlib

/-!
Verification development for the wav container codec of the img2wav
repository (src/src/wav.h, with the variant reader/writer in
src/unnamed/part_003 where noted).

Modelling conventions:
* machine integers are `Nat`/`Int` with explicit `% 2^w` where the C
  performs fixed-width arithmetic;
* `float` sample values are modelled as exact rationals; every float
  operation the codec performs on in-range samples (scaling by a power of
  two, truncation, rounding, conversion of an at-most-24-significant-bit
  integer) is exact in binary32, so the rational model agrees with the C
  float computation on the sample paths;
* a file is a `List Nat` of bytes (each < 256); sequential `fread`s of a
  w-byte item land at the cumulative byte offset, which the model computes
  directly;
* the single `FILE` handle of each operation is tracked by `opened`/`closed`
  flags on the result; `err = true` (or `err = some e`) records that the
  function took a `check_error` early-return path, printing a diagnostic.
-/

namespace Img2Wav

/-- Little-endian serialization of `w` bytes of a machine integer, as
`fwrite(&v, w, 1, file)` lays it out on a little-endian system. -/
def leBytes : Nat → Nat → List Nat
  | 0, _ => []
  | k + 1, v => (v % 256) :: leBytes k (v / 256)

/-- Value of a little-endian byte string, as `fread` into an integer
recovers it on a little-endian system. -/
def leVal : List Nat → Nat
  | [] => 0
  | b :: bs => b + 256 * leVal bs

/-- `slice l pos len`: the `len` bytes of the file `l` starting at byte
offset `pos` (what an `fread` of `len` bytes at position `pos` returns). -/
def slice (l : List Nat) (pos len : Nat) : List Nat := (l.drop pos).take len

/-- `concatMap f L`: the bytes emitted by iterating `f` over `L` in order;
models the nested write/read loops appending to the file. -/
def concatMap (f : α → List β) : List α → List β
  | [] => []
  | a :: t => f a ++ concatMap f t

/-- Truncation toward zero, the C cast from a floating value to an
integer type (C11 6.3.1.4). -/
def ctrunc (q : ℚ) : ℤ := if 0 ≤ q then ⌊q⌋ else -⌊-q⌋

/-- `lround`: rounding to nearest with ties away from zero (C99 7.12.9.7),
used by the 24-bit encoder `lround(data[ch][i] * 0x7FFFFF)`. -/
def lround (q : ℚ) : ℤ := if 0 ≤ q then ⌊q + 1/2⌋ else -⌊-q + 1/2⌋

/-- Reinterpret the `w`-bit unsigned value `n` as a two's-complement signed
integer (the value a signed `w`-bit C integer with bit pattern `n` holds). -/
def toSigned (w n : Nat) : ℤ := if n < 2 ^ (w - 1) then (n : ℤ) else (n : ℤ) - 2 ^ w

/-- Fuel-bounded base-2 logarithm (floor); executable helper for the
binary32 bit-pattern encoder below. -/
def log2fuel : Nat → Nat → Nat
  | 0, _ => 0
  | fuel + 1, n => if 2 ≤ n then log2fuel fuel (n / 2) + 1 else 0

/-- Floor of the base-2 logarithm of a positive rational (exact for
magnitudes at least `2^-300`, which covers the binary32 range). -/
def qlog2floor (a : ℚ) : ℤ := (log2fuel 1000 (a.num.toNat * 2 ^ 300 / a.den) : ℤ) - 300

/-- IEEE-754 binary32 bit pattern of a rational that is exactly
representable as a `float`; models the bytes `fwrite(&data[ch][i], 4, 1, f)`
emits on the 32-bit path.  (On inputs that are not exactly representable
the result is unspecified; the round-trip theorems carry a representability
hypothesis `Repr32`.) -/
def f32bits (s : ℚ) : Nat :=
  if s = 0 then 0
  else
    let sg : Nat := if s < 0 then 2 ^ 31 else 0
    let a : ℚ := |s|
    let e : ℤ := qlog2floor a
    if -126 ≤ e then
      let m : ℚ := a * (2 : ℚ) ^ ((23 : ℤ) - e)
      sg + (e + 127).toNat * 2 ^ 23 + (m.num.toNat - 2 ^ 23)
    else
      let m : ℚ := a * (2 : ℚ) ^ (149 : ℤ)
      sg + m.num.toNat

/-- Rational value of an IEEE-754 binary32 bit pattern (finite range). -/
def f32val (b : Nat) : ℚ :=
  let sg : Nat := b / 2 ^ 31
  let e : Nat := b / 2 ^ 23 % 2 ^ 8
  let m : Nat := b % 2 ^ 23
  let mag : ℚ := if e = 0 then (m : ℚ) * (2 : ℚ) ^ (-(149 : ℤ))
                 else ((2 ^ 23 + m : Nat) : ℚ) * (2 : ℚ) ^ ((e : ℤ) - 150)
  if sg = 0 then mag else -mag

/-- The four bytes the 32-bit write path stores for sample `s`. -/
def f32ToBytes (s : ℚ) : List Nat := leBytes 4 (f32bits s)

/-- The sample value the 32-bit read path recovers from four bytes. -/
def f32OfBytes (l : List Nat) : ℚ := f32val (leVal l)

/-- `s` is exactly representable as a binary32 float: storing and re-reading
it is the identity.  Every value a C `float` buffer can hold satisfies this. -/
def Repr32 (s : ℚ) : Prop := f32OfBytes (f32ToBytes s) = s

/-- 16-bit encoder of wav_write (src/src/wav.h:231-234):
`v = (int32_t)(s * 32768.0f)` clamped to `[-32768, 32767]`. -/
def enc16 (s : ℚ) : ℤ :=
  let v := ctrunc (s * 32768)
  if v < -32768 then -32768 else if v > 32767 then 32767 else v

/-- 24-bit encoder of wav_write (src/src/wav.h:223):
`lround(s * 0x7FFFFF) & 0xFFFFFF`, the low 3 bytes of the two's-complement
pattern. -/
def enc24 (s : ℚ) : Nat := ((lround (s * 8388607)) % (2 ^ 24 : ℤ)).toNat

/-- 8-bit encoder of the part_003 wav_write (src/unnamed/part_003:294):
`(uint8_t)(128 + ((uint8_t)(s * 127.0f)))`; both casts truncate toward zero
and wrap modulo 256 (x86 behaviour for the out-of-range negative case). -/
def enc8 (s : ℚ) : Nat := ((((128 : ℤ) + (ctrunc (s * 127)) % 256) % 256)).toNat

/-- Bytes the write loop appends for one sample at bit depth `bd`. -/
def encBytes (bd : Nat) (s : ℚ) : List Nat :=
  if bd = 32 then leBytes 4 (f32bits s)
  else if bd = 24 then leBytes 3 (enc24 s)
  else if bd = 16 then leBytes 2 ((enc16 s) % (2 ^ 16 : ℤ)).toNat
  else [enc8 s]

/-- 16-bit decoder of wav_read (src/src/wav.h:354-356): read an `int16_t`,
multiply by `0x1p-15f`. -/
def dec16 (w : Nat) : ℚ := (toSigned 16 w : ℚ) / 2 ^ 15

/-- 24-bit decoder of wav_read (src/src/wav.h:343-347): the 3 wire bytes are
copied into bytes 1..3 of a zero-initialized C `long l1`, which is then
scaled by `2^-31`.  `longBits` is the width of `long` on the platform
(32 on win32, 64 on unix/linux LP64): `l1` holds the signed value of the
bit pattern `256 * wire` in a `longBits`-bit integer. -/
def dec24 (longBits w : Nat) : ℚ := (toSigned longBits (256 * w % 2 ^ longBits) : ℚ) / 2 ^ 31

/-- 8-bit decoder of the part_003 wav_read (src/unnamed/part_003:433):
`(v - 128) * 0x1p-7f` with `v` the unsigned wire byte. -/
def dec8 (w : Nat) : ℚ := ((w : ℚ) - 128) / 2 ^ 7

/-- Sample value the read loop recovers from the wire bytes of one sample. -/
def decSample (longBits bd : Nat) (bytes : List Nat) : ℚ :=
  if bd = 32 then f32OfBytes bytes
  else if bd = 24 then dec24 longBits (leVal bytes)
  else if bd = 16 then dec16 (leVal bytes)
  else dec8 (leVal bytes)

/-- `struct wav_config` (src/src/wav.h:157-162): nc, ns, sr, bd are uint16,
uint32, uint32, uint16 fields; the width bounds appear as hypotheses of the
theorems. -/
structure wav_config where
  nc : Nat
  ns : Nat
  sr : Nat
  bd : Nat
deriving DecidableEq, Repr

/-- `struct WavHeader` (src/src/wav.h:76-102); the four constant tag strings
are fixed and appear directly in the serialization `headerBytes`. -/
structure wav_header where
  fileSize : Nat
  cksize : Nat
  WAVE_FORMAT_EXTENSIBLE : Nat
  numChannels : Nat
  sampleRate : Nat
  nAvgBytesPecSec : Nat
  nBlockAlign : Nat
  bitsPerSample : Nat
  dataSize : Nat
deriving DecidableEq, Repr

/-- `wav_header_new` (src/src/wav.h:114-142; identical arithmetic in
src/unnamed/part_003:169-196).  All stores into fixed-width fields are
reduced modulo the field width; `M = bd / 8`. -/
def wav_header_new (nc ns sr bd : Nat) : wav_header :=
  let M := bd / 8
  let fs := (28 + 8 + M * nc * ns) % 2 ^ 32
  { fileSize := if fs % 2 ≠ 0 then (fs + 1) % 2 ^ 32 else fs
    cksize := 16
    WAVE_FORMAT_EXTENSIBLE := if bd = 32 then 3 else 1
    numChannels := nc % 2 ^ 16
    sampleRate := sr % 2 ^ 32
    nAvgBytesPecSec := sr * bd * nc % 2 ^ 32 / 8
    nBlockAlign := M * nc % 2 ^ 16
    bitsPerSample := bd % 2 ^ 16
    dataSize := M * nc * ns % 2 ^ 32 }

/-- The 44 header bytes wav_write emits (src/src/wav.h:189-207): the tags
"RIFF", "WAVE", "fmt ", "data" and the little-endian fixed-width fields, in
source order. -/
def headerBytes (h : wav_header) : List Nat :=
  [82, 73, 70, 70] ++ leBytes 4 h.fileSize ++
  [87, 65, 86, 69] ++ [102, 109, 116, 32] ++
  leBytes 4 h.cksize ++ leBytes 2 h.WAVE_FORMAT_EXTENSIBLE ++
  leBytes 2 h.numChannels ++ leBytes 4 h.sampleRate ++
  leBytes 4 h.nAvgBytesPecSec ++ leBytes 2 h.nBlockAlign ++
  leBytes 2 h.bitsPerSample ++
  [100, 97, 116, 97] ++ leBytes 4 h.dataSize

/-- The sample payload wav_write appends (src/src/wav.h:212-239): for each
sample index i, for each channel ch, the encoding of `data ch i` — samples
are interleaved on disk. -/
def payloadBytes (bd nc ns : Nat) (data : Nat → Nat → ℚ) : List Nat :=
  concatMap (fun i => concatMap (fun ch => encBytes bd (data ch i)) (List.range nc))
    (List.range ns)

/-- The pad byte wav_write appends when the data size is odd
(src/src/wav.h:242-243). -/
def padBytes (h : wav_header) : List Nat :=
  if h.dataSize % 2 ≠ 0 then [0] else []

/-- Result of `wav_write`: the C return value, the created file (none when
no file was opened), whether the handle was closed before returning, and
whether a `check_error` diagnostic was printed. -/
structure WriteResult where
  ret : Nat
  file : Option (List Nat)
  closed : Bool
  err : Bool

/-- `wav_write` (src/src/wav.h:173-250).  The model takes the channel data
as a total function (the C pointers are non-null in every claim) and assumes
`fopen`, `malloc` and `fwrite` succeed, so the header byte-count check
`n != 25` (line 208) never fires; every successful write ends with `fclose`
(line 247).  The return value is `n / cfg.nc` with `n = ns * nc` element
writes (line 249). -/
def wav_write (cfg : wav_config) (data : Nat → Nat → ℚ) : WriteResult :=
  if cfg.nc = 0 then ⟨0, none, false, true⟩
  else if cfg.ns = 0 then ⟨0, none, false, true⟩
  else if cfg.sr = 0 then ⟨0, none, false, true⟩
  else if cfg.bd ≠ 32 ∧ cfg.bd ≠ 24 ∧ cfg.bd ≠ 16 then ⟨0, none, false, true⟩
  else
    let header := wav_header_new cfg.nc cfg.ns cfg.sr cfg.bd
    ⟨cfg.ns * cfg.nc / cfg.nc,
     some (headerBytes header ++
       (payloadBytes cfg.bd cfg.nc cfg.ns data ++ padBytes header)),
     true, false⟩

/-- The four tag checks of wav_get_header, in parse order. -/
inductive GHErr
  | riff
  | wave
  | fmt
  | data
deriving DecidableEq, Repr

/-- Result of `wav_get_header`: the returned `n`, the recovered config
(none when the function bailed out before the assignment at
src/src/wav.h:296-299), whether the handle was closed, and which tag check
failed (each check prints its own diagnostic at a distinct source line). -/
structure GHResult where
  ret : Nat
  cfg : Option wav_config
  closed : Bool
  err : Option GHErr
deriving DecidableEq, Repr

/-- `wav_get_header` (src/src/wav.h:260-304; same logic in
src/unnamed/part_003:320-363).  The reads are sequential, so each field
lives at its cumulative byte offset; `n` counts fread element returns
(4 per tag, 1 per value), so the four tag checks see n = 4, 9, 13, 24 and
the final `n != WAV_HEADER_SIZE` check (25) passes whenever all reads
succeed.  Note the three `check_error` early returns and the final
`n != 25` path return WITHOUT `fclose`; only the success path closes the
handle (line 301). -/
def wav_get_header (file : List Nat) : GHResult :=
  if slice file 0 4 ≠ [82, 73, 70, 70] then ⟨4, none, false, some GHErr.riff⟩
  else if slice file 8 4 ≠ [87, 65, 86, 69] then ⟨9, none, false, some GHErr.wave⟩
  else if slice file 12 4 ≠ [102, 109, 116, 32] then ⟨13, none, false, some GHErr.fmt⟩
  else if slice file 36 4 ≠ [100, 97, 116, 97] then ⟨24, none, false, some GHErr.data⟩
  else
    let nc := leVal (slice file 22 2)
    let bd := leVal (slice file 34 2)
    let sr := leVal (slice file 24 4)
    let ds := leVal (slice file 40 4)
    ⟨25, some ⟨nc, ds / (nc * bd / 8), sr, bd⟩, true, none⟩

/-- The divisor of the sample-count derivation `ns = data_size / (nc * bd / 8)`
at src/src/wav.h:299 (src/unnamed/part_003:358), computed from the
unvalidated `numChannels` and `bitsPerSample` fields of the file. -/
def gh_divisor (file : List Nat) : Nat :=
  leVal (slice file 22 2) * leVal (slice file 34 2) / 8

/-- Result of `wav_read`: the C return value, the decoded channel data
(none when the function bailed out before the read loop), whether a handle
was opened, whether it was closed before returning, and whether a
`check_error` diagnostic was printed. -/
structure ReadResult where
  ret : Nat
  out : Option (Nat → Nat → ℚ)
  opened : Bool
  closed : Bool
  err : Bool

/-- `wav_read` (src/src/wav.h:315-363).  After validation it opens the file,
seeks to offset 44 (`fseek` succeeds on any seekable stream) and runs the
per-sample read loop: the k-th `fread` of `M = bd / 8` bytes sits at offset
`44 + k * M` and succeeds while a complete M-byte item remains, so `n`, the
number of successful element reads, is `min (ns * nc) ((len - 44) / M)`;
the function returns `n / nc`.  Entries past the last successful read keep
an unspecified stale value in C; the model decodes the (short) slice there —
no claim depends on those entries.  NOTE: no path of wav_read calls
`fclose`, hence `closed := false` on every path. -/
def wav_read (longBits : Nat) (cfg : wav_config) (file : List Nat) : ReadResult :=
  if cfg.nc = 0 then ⟨0, none, false, false, true⟩
  else if cfg.ns = 0 then ⟨0, none, false, false, true⟩
  else if cfg.sr = 0 then ⟨0, none, false, false, true⟩
  else if cfg.bd ≠ 32 ∧ cfg.bd ≠ 24 ∧ cfg.bd ≠ 16 then ⟨0, none, false, false, true⟩
  else
    let M := cfg.bd / 8
    let n := min (cfg.ns * cfg.nc) ((file.length - 44) / M)
    ⟨n / cfg.nc,
     some fun ch i => decSample longBits cfg.bd (slice file (44 + (i * cfg.nc + ch) * M) M),
     true, false, false⟩

/-- Bit-depth-dependent round-trip tolerance of the claim: 32-bit exact,
24-bit within 1e-6, 16-bit within 1e-4, 8-bit within 1/128. -/
def tol : Nat → ℚ
  | 32 => 0
  | 24 => 1 / 1000000
  | 16 => 1 / 10000
  | _ => 1 / 128

/-- The round-trip property of claim C1 at one (config, buffer) pair:
wav_write creates a file, wav_get_header on it recovers the config exactly,
and wav_read (with the stated `long` width on the 24-bit path) returns
`ns` and recovers every sample within the bit-depth tolerance. -/
def roundTripOK (longBits : Nat) (cfg : wav_config) (data : Nat → Nat → ℚ) : Prop :=
  (wav_write cfg data).file.isSome = true ∧
  (wav_get_header ((wav_write cfg data).file.getD [])).cfg = some cfg ∧
  (wav_read longBits cfg ((wav_write cfg data).file.getD [])).ret = cfg.ns ∧
  ∀ ch, ch < cfg.nc → ∀ i, i < cfg.ns →
    |((wav_read longBits cfg ((wav_write cfg data).file.getD [])).out.getD
        (fun _ _ => 0)) ch i - data ch i| ≤ tol cfg.bd

/-- A configuration the claims call valid, together with the bounds the C
field types impose (nc, bd are uint16; ns, sr are uint32). -/
def validCfg (c : wav_config) : Prop :=
  0 < c.nc ∧ 0 < c.ns ∧ 0 < c.sr ∧
  c.nc < 2 ^ 16 ∧ c.ns < 2 ^ 32 ∧ c.sr < 2 ^ 32 ∧ c.bd < 2 ^ 16

/-- The tag-mismatch condition each `check_error` site of wav_get_header
tests (src/src/wav.h:273,278,280,291). -/
def tagMismatch (file : List Nat) : GHErr → Prop
  | GHErr.riff => slice file 0 4 ≠ [82, 73, 70, 70]
  | GHErr.wave => slice file 8 4 ≠ [87, 65, 86, 69]
  | GHErr.fmt => slice file 12 4 ≠ [102, 109, 116, 32]
  | GHErr.data => slice file 36 4 ≠ [100, 97, 116, 97]

/-- A 44-byte file with all four tags intact, `numChannels = 0`,
`bitsPerSample = 16`, `sampleRate = 44100` and `data_size = 4`. -/
def headerFileZeroNC : List Nat :=
  [82, 73, 70, 70, 36, 0, 0, 0, 87, 65, 86, 69, 102, 109, 116, 32,
   16, 0, 0, 0, 1, 0, 0, 0, 68, 172, 0, 0, 0, 0, 0, 0, 0, 0, 16, 0,
   100, 97, 116, 97, 4, 0, 0, 0]

/-- A 44-byte file with all four tags intact, `numChannels = 1`,
`bitsPerSample = 4` (below 8), `sampleRate = 44100` and `data_size = 4`. -/
def headerFileTinyBD : List Nat :=
  [82, 73, 70, 70, 36, 0, 0, 0, 87, 65, 86, 69, 102, 109, 116, 32,
   16, 0, 0, 0, 1, 0, 1, 0, 68, 172, 0, 0, 0, 0, 0, 0, 0, 0, 4, 0,
   100, 97, 116, 97, 4, 0, 0, 0]

instance (s : ℚ) : Decidable (Repr32 s) := by
  unfold Repr32
  infer_instance

instance (longBits : Nat) (cfg : wav_config) (data : Nat → Nat → ℚ) :
    Decidable (roundTripOK longBits cfg data) := by
  unfold roundTripOK
  infer_instance

instance (c : wav_config) : Decidable (validCfg c) := by
  unfold validCfg
  infer_instance

/-! ### List bookkeeping lemmas -/

theorem concatMap_nil {α β : Type} (f : α → List β) : concatMap f [] = [] := rfl

theorem concatMap_cons {α β : Type} (f : α → List β) (a : α) (t : List α) :
    concatMap f (a :: t) = f a ++ concatMap f t := rfl

theorem concatMap_append {α β : Type} (f : α → List β) (L₁ L₂ : List α) :
    concatMap f (L₁ ++ L₂) = concatMap f L₁ ++ concatMap f L₂ := by
  induction L₁ with
  | nil => rfl
  | cons a t ih => simp [concatMap_cons, ih]

theorem concatMap_length_const {α β : Type} (f : α → List β) (c : Nat) :
    ∀ L : List α, (∀ a ∈ L, (f a).length = c) → (concatMap f L).length = L.length * c := by
  intro L
  induction L with
  | nil => intro _; simp [concatMap_nil]
  | cons a t ih =>
    intro h
    have ha := h a (by simp)
    have ht := ih fun x hx => h x (by simp [hx])
    simp [concatMap_cons, ha, ht, Nat.succ_mul, Nat.add_comm]

theorem drop_append_le {α : Type} (A B : List α) :
    ∀ k, k ≤ A.length → (A ++ B).drop k = A.drop k ++ B := by
  induction A with
  | nil =>
    intro k hk
    have : k = 0 := by simpa using hk
    simp [this]
  | cons a t ih =>
    intro k hk
    cases k with
    | zero => simp
    | succ k => simpa using ih k (by simpa using hk)

theorem take_append_le {α : Type} (A B : List α) :
    ∀ k, k ≤ A.length → (A ++ B).take k = A.take k := by
  induction A with
  | nil =>
    intro k hk
    have : k = 0 := by simpa using hk
    simp [this]
  | cons a t ih =>
    intro k hk
    cases k with
    | zero => simp
    | succ k => simpa using ih k (by simpa using hk)

theorem concatMap_range_drop {β : Type} (f : Nat → List β) (c : Nat)
    (hf : ∀ j, (f j).length = c) :
    ∀ n i, i < n → ∃ t, (concatMap f (List.range n)).drop (i * c) = f i ++ t := by
  intro n
  induction n with
  | zero => intro i h; omega
  | succ n ih =>
    intro i hi
    rw [List.range_succ, concatMap_append]
    by_cases h : i < n
    · obtain ⟨t, ht⟩ := ih i h
      have hlen : i * c ≤ (concatMap f (List.range n)).length := by
        rw [concatMap_length_const f c _ fun a _ => hf a, List.length_range]
        exact Nat.mul_le_mul_right c (Nat.le_of_lt h)
      refine ⟨t ++ concatMap f [n], ?_⟩
      rw [drop_append_le _ _ _ hlen, ht, List.append_assoc]
    · have hin : i = n := by omega
      subst hin
      refine ⟨[], ?_⟩
      rw [List.drop_left' (by rw [concatMap_length_const f c _ fun a _ => hf a, List.length_range])]
      simp [concatMap_cons, concatMap_nil]

theorem leBytes_length : ∀ k v, (leBytes k v).length = k := by
  intro k
  induction k with
  | zero => intro v; rfl
  | succ k ih => intro v; simp [leBytes, ih]

/-- The serialized header is 44 bytes for every header value. -/
theorem headerBytes_length (h : wav_header) : (headerBytes h).length = 44 := by
  simp [headerBytes, leBytes_length]

/-- The payload slice of one sample: inside the payload, the bytes at offset
`(i * nc + ch) * M` are exactly the encoding of `data ch i`. -/
theorem payloadBytes_slice (bd nc ns : Nat) (data : Nat → Nat → ℚ) (M : Nat)
    (hM : ∀ s : ℚ, (encBytes bd s).length = M)
    (i ch : Nat) (hch : ch < nc) (hi : i < ns) :
    slice (payloadBytes bd nc ns data) ((i * nc + ch) * M) M = encBytes bd (data ch i) := by
  unfold payloadBytes slice
  have hframe : ∀ j, (concatMap (fun ch => encBytes bd (data ch j)) (List.range nc)).length
      = nc * M := by
    intro j
    rw [concatMap_length_const _ M _ fun a _ => hM _, List.length_range]
  obtain ⟨t, ht⟩ := concatMap_range_drop
    (fun j => concatMap (fun ch => encBytes bd (data ch j)) (List.range nc)) (nc * M)
    hframe ns i hi
  obtain ⟨t₂, ht₂⟩ := concatMap_range_drop (fun ch => encBytes bd (data ch i)) M
    (fun j => hM _) nc ch hch
  have harith : (i * nc + ch) * M = i * (nc * M) + ch * M := by ring
  rw [harith, ← List.drop_drop, ht,
    drop_append_le _ _ _ (by rw [hframe i]; exact Nat.mul_le_mul_right M (Nat.le_of_lt hch)),
    ht₂, List.append_assoc]
  exact List.take_left' (hM _)

/-- The length of the payload is `ns * (nc * M)` bytes. -/
theorem payloadBytes_length (bd nc ns : Nat) (data : Nat → Nat → ℚ) (M : Nat)
    (hM : ∀ s : ℚ, (encBytes bd s).length = M) :
    (payloadBytes bd nc ns data).length = ns * (nc * M) := by
  unfold payloadBytes
  rw [concatMap_length_const _ (nc * M), List.length_range]
  intro a _
  rw [concatMap_length_const _ M _ fun x _ => hM _, List.length_range]

/-- Slicing one sample out of a written file: past the 44 header bytes, a
slice that stays inside the payload ignores the header and the pad byte. -/
theorem file_slice (hb payload pad : List Nat) (hhb : hb.length = 44)
    (k M : Nat) (hk : k * M + M ≤ payload.length) :
    slice (hb ++ (payload ++ pad)) (44 + k * M) M = slice payload (k * M) M := by
  unfold slice
  rw [← List.drop_drop, List.drop_left' hhb,
    drop_append_le payload pad _ (by omega)]
  exact take_append_le _ _ M (by rw [List.length_drop]; omega)

/-! ### Unfolding lemmas for the writer and reader on valid configurations -/

/-- On a config passing validation, wav_write emits header ++ payload ++ pad,
returns `ns * nc / nc` element writes per channel, and closes its handle. -/
theorem wav_write_eq (cfg : wav_config) (data : Nat → Nat → ℚ)
    (h0 : 0 < cfg.nc) (h1 : 0 < cfg.ns) (h2 : 0 < cfg.sr)
    (hbd : cfg.bd = 16 ∨ cfg.bd = 24 ∨ cfg.bd = 32) :
    wav_write cfg data =
      ⟨cfg.ns,
       some (headerBytes (wav_header_new cfg.nc cfg.ns cfg.sr cfg.bd) ++
         (payloadBytes cfg.bd cfg.nc cfg.ns data ++
           padBytes (wav_header_new cfg.nc cfg.ns cfg.sr cfg.bd))),
       true, false⟩ := by
  unfold wav_write
  rw [if_neg (by omega), if_neg (by omega), if_neg (by omega),
    if_neg (by rcases hbd with h | h | h <;> simp [h]),
    Nat.mul_div_cancel _ h0]

/-- On a config passing validation, wav_read returns
`min (ns * nc) ((len - 44) / M) / nc` and the per-slot decodes; it opens a
handle and never closes it. -/
theorem wav_read_eq (longBits : Nat) (cfg : wav_config) (file : List Nat)
    (h0 : 0 < cfg.nc) (h1 : 0 < cfg.ns) (h2 : 0 < cfg.sr)
    (hbd : cfg.bd = 16 ∨ cfg.bd = 24 ∨ cfg.bd = 32) :
    wav_read longBits cfg file =
      ⟨min (cfg.ns * cfg.nc) ((file.length - 44) / (cfg.bd / 8)) / cfg.nc,
       some fun ch i => decSample longBits cfg.bd
         (slice file (44 + (i * cfg.nc + ch) * (cfg.bd / 8)) (cfg.bd / 8)),
       true, false, false⟩ := by
  unfold wav_read
  rw [if_neg (by omega), if_neg (by omega), if_neg (by omega),
    if_neg (by rcases hbd with h | h | h <;> simp [h])]

/-! ### Claim theorems -/

/-- C7: for every input, the `total_size` field written into the RIFF chunk
equals `36 + data_size`, plus 1 when `data_size` is odd (the pad byte), with
arithmetic in uint32 (`wav_header_new`, src/src/wav.h:118-124). -/
theorem C7_riff_total_size (nc ns sr bd : Nat) :
    (wav_header_new nc ns sr bd).fileSize =
      (36 + (wav_header_new nc ns sr bd).dataSize +
        (if (wav_header_new nc ns sr bd).dataSize % 2 = 1 then 1 else 0)) % 2 ^ 32 := by
  unfold wav_header_new
  simp only []
  split_ifs <;> omega

/-- C5: for every config and buffer, the header section wav_write emits
before the sample payload is exactly 44 bytes, regardless of bit depth or
channel count: the serialized header always measures 44 bytes, and whenever
wav_write creates a file, that file starts with exactly those 44 bytes
followed by the rest (payload and pad). -/
theorem C5_header_44 (cfg : wav_config) (data : Nat → Nat → ℚ) :
    (headerBytes (wav_header_new cfg.nc cfg.ns cfg.sr cfg.bd)).length = 44 ∧
    ((wav_write cfg data).file.isSome = true →
      ∃ rest, (wav_write cfg data).file =
        some (headerBytes (wav_header_new cfg.nc cfg.ns cfg.sr cfg.bd) ++ rest)) := by
  refine ⟨headerBytes_length _, ?_⟩
  intro hs
  unfold wav_write at hs ⊢
  split_ifs at hs ⊢ <;> simp_all

/-- Witness for C5 at the config (1, 1, 1, 16) and the zero buffer. -/
theorem C5_header_44_witness :
    (headerBytes (wav_header_new 1 1 1 16)).length = 44 ∧
    ∃ rest, (wav_write ⟨1, 1, 1, 16⟩ (fun _ _ => 0)).file =
      some (headerBytes (wav_header_new 1 1 1 16) ++ rest) :=
  ⟨(C5_header_44 ⟨1, 1, 1, 16⟩ (fun _ _ => 0)).1,
   (C5_header_44 ⟨1, 1, 1, 16⟩ (fun _ _ => 0)).2 (by decide)⟩

/-- C3: every config with `nc = 0`, `ns = 0`, `sr = 0`, or a bit depth
outside 8, 16, 24, 32 is rejected by both wav_write and wav_read: they print
the validation diagnostic and return 0 before any I/O, so no file is
opened, created or written (src/src/wav.h:176-184 and 317-327; this version
rejects bit depth 8 as well, which only strengthens the rejection of depths
outside 8, 16, 24, 32). -/
theorem C3_validation (cfg : wav_config)
    (h : cfg.nc = 0 ∨ cfg.ns = 0 ∨ cfg.sr = 0 ∨
      (cfg.bd ≠ 8 ∧ cfg.bd ≠ 16 ∧ cfg.bd ≠ 24 ∧ cfg.bd ≠ 32))
    (data : Nat → Nat → ℚ) (file : List Nat) (longBits : Nat) :
    ((wav_write cfg data).ret = 0 ∧ (wav_write cfg data).file = none ∧
      (wav_write cfg data).err = true) ∧
    ((wav_read longBits cfg file).ret = 0 ∧
      (wav_read longBits cfg file).opened = false ∧
      (wav_read longBits cfg file).err = true) := by
  have hw : wav_write cfg data = ⟨0, none, false, true⟩ := by
    unfold wav_write
    split_ifs with a b c d
    · rfl
    · rfl
    · rfl
    · rfl
    · exfalso
      rcases h with h | h | h | ⟨h8, h16, h24, h32⟩
      · omega
      · omega
      · omega
      · exact d ⟨h32, h24, h16⟩
  have hr : wav_read longBits cfg file = ⟨0, none, false, false, true⟩ := by
    unfold wav_read
    split_ifs with a b c d
    · rfl
    · rfl
    · rfl
    · rfl
    · exfalso
      rcases h with h | h | h | ⟨h8, h16, h24, h32⟩
      · omega
      · omega
      · omega
      · exact d ⟨h32, h24, h16⟩
  rw [hw, hr]
  exact ⟨⟨rfl, rfl, rfl⟩, rfl, rfl, rfl⟩

/-- Witness for C3 at the config (0, 1, 1, 16): wav_write and wav_read both
reject it eagerly. -/
theorem C3_validation_witness :
    ((wav_write ⟨0, 1, 1, 16⟩ (fun _ _ => 0)).ret = 0 ∧
      (wav_write ⟨0, 1, 1, 16⟩ (fun _ _ => 0)).file = none ∧
      (wav_write ⟨0, 1, 1, 16⟩ (fun _ _ => 0)).err = true) ∧
    ((wav_read 32 ⟨0, 1, 1, 16⟩ []).ret = 0 ∧
      (wav_read 32 ⟨0, 1, 1, 16⟩ []).opened = false ∧
      (wav_read 32 ⟨0, 1, 1, 16⟩ []).err = true) :=
  C3_validation ⟨0, 1, 1, 16⟩ (Or.inl rfl) (fun _ _ => 0) [] 32

/-- C6: on every input file in which one of the four chunk tags is
corrupted, wav_get_header stops at a tag check whose condition fails,
reports that check's diagnostic (each check prints from its own source
line), and never reaches the config assignment. -/
theorem C6_tag_validation (file : List Nat)
    (h : slice file 0 4 ≠ [82, 73, 70, 70] ∨ slice file 8 4 ≠ [87, 65, 86, 69] ∨
      slice file 12 4 ≠ [102, 109, 116, 32] ∨ slice file 36 4 ≠ [100, 97, 116, 97]) :
    (wav_get_header file).cfg = none ∧
    ∃ e, (wav_get_header file).err = some e ∧ tagMismatch file e := by
  unfold wav_get_header
  split_ifs with h1 h2 h3 h4
  · exact ⟨rfl, GHErr.riff, rfl, h1⟩
  · exact ⟨rfl, GHErr.wave, rfl, h2⟩
  · exact ⟨rfl, GHErr.fmt, rfl, h3⟩
  · exact ⟨rfl, GHErr.data, rfl, h4⟩
  · exact absurd h (by simp [h1, h2, h3, h4, tagMismatch])

/-- Witness for C6: a file whose RIFF tag reads RIFX fails with the RIFF
error and yields no config. -/
theorem C6_tag_validation_witness :
    (wav_get_header ([82, 73, 70, 88] ++ List.replicate 40 0)).cfg = none ∧
    ∃ e, (wav_get_header ([82, 73, 70, 88] ++ List.replicate 40 0)).err = some e ∧
      tagMismatch ([82, 73, 70, 88] ++ List.replicate 40 0) e :=
  C6_tag_validation ([82, 73, 70, 88] ++ List.replicate 40 0) (Or.inl (by decide))

/-- C10: wav_get_header derives `ns = data_size / (nc * bd / 8)` from the
`numChannels` and `bitsPerSample` fields of the file without validating
them (the config assignment at src/src/wav.h:296-299 follows the tag checks
directly), and there are tag-correct input files with `numChannels = 0`
(headerFileZeroNC) and with `bitsPerSample = 4 < 8` (headerFileTinyBD) on
which the divisor `nc * bd / 8` is zero while the division is still
reached — in C this division is unguarded (the Lean model totalizes
division by zero as zero). -/
theorem C10_unguarded_division :
    (∀ file, (wav_get_header file).err = none →
      (wav_get_header file).cfg =
        some ⟨leVal (slice file 22 2),
              leVal (slice file 40 4) / gh_divisor file,
              leVal (slice file 24 4),
              leVal (slice file 34 2)⟩) ∧
    ((wav_get_header headerFileZeroNC).err = none ∧ gh_divisor headerFileZeroNC = 0) ∧
    ((wav_get_header headerFileTinyBD).err = none ∧ gh_divisor headerFileTinyBD = 0) := by
  refine ⟨?_, by decide, by decide⟩
  intro file he
  unfold wav_get_header at he ⊢
  split_ifs at he ⊢
  rfl

/-- Witness for C10: evaluating the derivation formula on the tag-correct
file with zero channels. -/
theorem C10_unguarded_division_witness :
    (wav_get_header headerFileZeroNC).cfg =
      some ⟨leVal (slice headerFileZeroNC 22 2),
            leVal (slice headerFileZeroNC 40 4) / gh_divisor headerFileZeroNC,
            leVal (slice headerFileZeroNC 24 4),
            leVal (slice headerFileZeroNC 34 2)⟩ :=
  C10_unguarded_division.1 headerFileZeroNC (by decide)

/-! ### Arithmetic facts about the scalar codec helpers -/

theorem ctrunc_dist (q : ℚ) : |(ctrunc q : ℚ) - q| < 1 := by
  unfold ctrunc
  split_ifs with h
  · have h1 := Int.floor_le q
    have h2 := Int.sub_one_lt_floor q
    rw [abs_lt]
    constructor <;> linarith
  · have h1 := Int.floor_le (-q)
    have h2 := Int.sub_one_lt_floor (-q)
    rw [abs_lt]
    push_cast
    constructor <;> linarith

theorem ctrunc_abs_le (q : ℚ) : |(ctrunc q : ℚ)| ≤ |q| := by
  unfold ctrunc
  split_ifs with h
  · have h0 : (0 : ℚ) ≤ (⌊q⌋ : ℚ) := by exact_mod_cast Int.floor_nonneg.mpr h
    rw [abs_of_nonneg h0, abs_of_nonneg h]
    exact Int.floor_le q
  · push_neg at h
    have hq : (0 : ℚ) ≤ -q := by linarith
    have h0 : (0 : ℚ) ≤ (⌊-q⌋ : ℚ) := by exact_mod_cast Int.floor_nonneg.mpr hq
    have hfl := Int.floor_le (-q)
    rw [abs_of_neg h]
    push_cast
    rw [abs_of_nonpos (by linarith)]
    linarith

theorem ctrunc_nonpos (q : ℚ) (h : q ≤ 0) : ctrunc q ≤ 0 := by
  unfold ctrunc
  split_ifs with h0
  · have : q = 0 := le_antisymm h h0
    simp [this]
  · have : (0 : ℚ) ≤ -q := by linarith
    have := Int.floor_nonneg.mpr this
    omega

theorem ctrunc_le_neg_one (q : ℚ) : ctrunc q ≤ -1 ↔ q ≤ -1 := by
  unfold ctrunc
  split_ifs with h
  · have h0 := Int.floor_nonneg.mpr h
    constructor
    · intro hh; omega
    · intro hh; exfalso; linarith
  · have : -⌊-q⌋ ≤ -1 ↔ 1 ≤ ⌊-q⌋ := by omega
    rw [this, Int.le_floor]
    push_cast
    constructor <;> intro <;> linarith

theorem lround_dist (q : ℚ) : |(lround q : ℚ) - q| ≤ 1 / 2 := by
  unfold lround
  split_ifs with h
  · have h1 := Int.floor_le (q + 1 / 2)
    have h2 := Int.sub_one_lt_floor (q + 1 / 2)
    rw [abs_le]
    constructor <;> linarith
  · have h1 := Int.floor_le (-q + 1 / 2)
    have h2 := Int.sub_one_lt_floor (-q + 1 / 2)
    rw [abs_le]
    push_cast
    constructor <;> linarith

/-! ### C4: handle discipline -/

/-- C4 counterexample: the claim that every operation closes its handle on
every exit path fails at a plain successful wav_read call, which opens the
file and returns without ever calling fclose (src/src/wav.h:326-362 contains
no fclose). -/
theorem C4_counterexample :
    (wav_read 32 ⟨1, 1, 1, 32⟩ (List.replicate 48 0)).opened = true ∧
    (wav_read 32 ⟨1, 1, 1, 32⟩ (List.replicate 48 0)).closed = false := by
  decide

/-- C4 amended: wav_write closes its handle whenever it created a file;
wav_get_header closes its handle exactly on the full-success path (each
tag-mismatch early return leaves the handle open); and wav_read never
closes the handle it opens, on any path. -/
theorem C4_amended :
    (∀ cfg data, (wav_write cfg data).file.isSome = true →
      (wav_write cfg data).closed = true) ∧
    (∀ file, ((wav_get_header file).closed = true ↔ (wav_get_header file).err = none)) ∧
    (∀ longBits cfg file, (wav_read longBits cfg file).closed = false) := by
  refine ⟨?_, ?_, ?_⟩
  · intro cfg data h
    unfold wav_write at h ⊢
    split_ifs at h ⊢ <;> simp_all
  · intro file
    unfold wav_get_header
    split_ifs <;> simp
  · intro longBits cfg file
    unfold wav_read
    split_ifs <;> rfl

/-- Witness for the amended C4 at concrete calls of all three operations. -/
theorem C4_amended_witness :
    (wav_write ⟨1, 1, 1, 16⟩ (fun _ _ => 0)).closed = true ∧
    (wav_get_header headerFileZeroNC).closed = true ∧
    (wav_read 32 ⟨1, 1, 1, 16⟩ []).closed = false :=
  ⟨C4_amended.1 ⟨1, 1, 1, 16⟩ (fun _ _ => 0) (by decide),
   (C4_amended.2.1 headerFileZeroNC).mpr (by decide),
   C4_amended.2.2 32 ⟨1, 1, 1, 16⟩ []⟩

/-! ### C2: the 24-bit decode and the width of C `long` -/

/-- C2: on a platform where `long` is 32 bits the 24-bit decode sign-extends
(wire 0x800000 decodes to -1), but on the unix/linux LP64 platforms the
header itself claims to support, `long` is 64 bits, the copied-in bit
pattern `256 * wire` is never negative, and the same wire value decodes to
+1.0 — not a negative value in [-1.0, 0) as the claim states; a full
wav_read call on such a file returns +1.0 for that sample.  This also makes
the repository's own 24-bit round-trip test (tests/wav_test.c:119-121,
tolerance 1e-6 on a ±0.8 sine) fail on LP64. -/
theorem C2_sign_extension_bug :
    dec24 32 8388608 = -1 ∧
    dec24 64 8388608 = 1 ∧ ¬ dec24 64 8388608 < 0 ∧
    ((wav_read 64 ⟨1, 1, 1, 24⟩ (List.replicate 44 0 ++ [0, 0, 128])).out.getD
        (fun _ _ => 0)) 0 0 = 1 := by
  have hd64 : dec24 64 8388608 = 1 := by norm_num [dec24, toSigned]
  refine ⟨by norm_num [dec24, toSigned], hd64, by rw [hd64]; norm_num, ?_⟩
  rw [wav_read_eq 64 ⟨1, 1, 1, 24⟩ _ (by decide) (by decide) (by decide)
    (Or.inr (Or.inl rfl))]
  show decSample 64 24
    (slice (List.replicate 44 0 ++ [0, 0, 128]) (44 + (0 * 1 + 0) * (24 / 8)) (24 / 8)) = 1
  have hs : slice (List.replicate 44 0 ++ [0, 0, 128]) (44 + (0 * 1 + 0) * (24 / 8)) (24 / 8)
      = [0, 0, 128] := by decide
  rw [hs]
  show dec24 64 (leVal [0, 0, 128]) = 1
  have hv : leVal [0, 0, 128] = 8388608 := by decide
  rw [hv, hd64]

/-! ### C9: truncated payloads -/

/-- C9 counterexample: on a file whose payload holds only one of the two
declared 16-bit samples, wav_read (src/src/wav.h) returns the short count 1
with no error reported, contradicting the claim that an error is reported
rather than silently returning a count smaller than sample_count. -/
theorem C9_counterexample :
    (wav_read 32 ⟨1, 2, 1, 16⟩ (List.replicate 46 0)).ret = 1 ∧
    (1 : Nat) < 2 ∧
    (wav_read 32 ⟨1, 2, 1, 16⟩ (List.replicate 46 0)).err = false := by
  decide

/-- C9 amended: for every valid config and source file whose payload holds
fewer than `ns * nc * (bd / 8)` bytes after the header, wav_read of
src/src/wav.h reports no error and silently returns a per-channel count
strictly below `ns` (the part_003 bulk-read variant instead checks the byte
count and aborts with a diagnostic before decoding). -/
theorem C9_amended (longBits : Nat) (cfg : wav_config) (file : List Nat)
    (h0 : 0 < cfg.nc) (h1 : 0 < cfg.ns) (h2 : 0 < cfg.sr)
    (hbd : cfg.bd = 16 ∨ cfg.bd = 24 ∨ cfg.bd = 32)
    (hshort : file.length < 44 + cfg.ns * cfg.nc * (cfg.bd / 8)) :
    (wav_read longBits cfg file).err = false ∧
    (wav_read longBits cfg file).ret < cfg.ns := by
  rw [wav_read_eq longBits cfg file h0 h1 h2 hbd]
  refine ⟨rfl, ?_⟩
  have hM : 0 < cfg.bd / 8 := by rcases hbd with h | h | h <;> simp [h]
  have hpos : 0 < cfg.ns * cfg.nc * (cfg.bd / 8) :=
    Nat.mul_pos (Nat.mul_pos h1 h0) hM
  have havail : (file.length - 44) / (cfg.bd / 8) < cfg.ns * cfg.nc := by
    rw [Nat.div_lt_iff_lt_mul hM]
    omega
  rw [min_eq_right (Nat.le_of_lt havail), Nat.div_lt_iff_lt_mul h0]
  exact havail

/-- Witness for the amended C9 at the truncated concrete file. -/
theorem C9_amended_witness :
    (wav_read 32 ⟨1, 2, 1, 16⟩ (List.replicate 46 0)).err = false ∧
    (wav_read 32 ⟨1, 2, 1, 16⟩ (List.replicate 46 0)).ret < 2 :=
  C9_amended 32 ⟨1, 2, 1, 16⟩ (List.replicate 46 0)
    (by decide) (by decide) (by decide) (Or.inl rfl) (by decide)

/-! ### C8: the 8-bit encoder -/

/-- C8 counterexample: the in-range negative sample -1/254 encodes to the
byte 128, not to a byte strictly below 128 as the claim states (its
truncated scaled value is 0). -/
theorem C8_counterexample :
    ((-1 : ℚ) ≤ -(1 / 254) ∧ (-(1 / 254) : ℚ) < 0) ∧ ¬ enc8 (-(1 / 254)) < 128 := by
  refine ⟨⟨by norm_num, by norm_num⟩, ?_⟩
  have h : enc8 (-(1 / 254)) = 128 := by
    norm_num [enc8, ctrunc]
    decide
  omega

/-- C8 amended: for every sample in [-1, 1] the 8-bit encoder writes the
byte `128 + truncate(s * 127.0)` (offset binary); a negative in-range
sample encodes to a byte at most 128, and strictly below 128 exactly when
`s ≤ -1/127`. -/
theorem C8_amended (s : ℚ) (h1 : -1 ≤ s) (h2 : s ≤ 1) :
    (enc8 s : ℤ) = 128 + ctrunc (s * 127) ∧
    (s < 0 → enc8 s ≤ 128 ∧ (enc8 s < 128 ↔ s ≤ -(1 / 127))) := by
  have hs : |s| ≤ 1 := abs_le.mpr ⟨h1, h2⟩
  have habs : |s * 127| ≤ 127 := by
    rw [abs_mul]
    norm_num
    nlinarith
  have hta := ctrunc_abs_le (s * 127)
  have htQ : |(ctrunc (s * 127) : ℚ)| ≤ 127 := le_trans hta habs
  have ht : -127 ≤ ctrunc (s * 127) ∧ ctrunc (s * 127) ≤ 127 := by
    rw [abs_le] at htQ
    exact ⟨by exact_mod_cast htQ.1, by exact_mod_cast htQ.2⟩
  have henc : (enc8 s : ℤ) = 128 + ctrunc (s * 127) := by
    unfold enc8
    omega
  refine ⟨henc, fun hneg => ?_⟩
  have htn : ctrunc (s * 127) ≤ 0 := ctrunc_nonpos _ (by nlinarith)
  refine ⟨by omega, ?_, ?_⟩
  · intro hlt
    have : ctrunc (s * 127) ≤ -1 := by omega
    have := (ctrunc_le_neg_one (s * 127)).mp this
    linarith
  · intro hle
    have : s * 127 ≤ -1 := by linarith
    have := (ctrunc_le_neg_one (s * 127)).mpr this
    omega

/-- Witness for the amended C8 at the sample -1/2 (byte 128 - 63 = 65). -/
theorem C8_amended_witness :
    (enc8 (-(1 / 2)) : ℤ) = 128 + ctrunc (-(1 / 2) * 127) :=
  (C8_amended (-(1 / 2)) (by norm_num) (by norm_num)).1

/-! ### Round-trip infrastructure for C1 -/

theorem leVal_leBytes2 (v : Nat) : leVal (leBytes 2 v) = v % 2 ^ 16 := by
  show v % 256 + 256 * (v / 256 % 256 + 256 * 0) = v % 2 ^ 16
  omega

theorem leVal_leBytes3 (v : Nat) : leVal (leBytes 3 v) = v % 2 ^ 24 := by
  show v % 256 + 256 * (v / 256 % 256 + 256 * (v / 256 / 256 % 256 + 256 * 0)) = v % 2 ^ 24
  omega

theorem leVal_leBytes4 (v : Nat) : leVal (leBytes 4 v) = v % 2 ^ 32 := by
  show v % 256 + 256 * (v / 256 % 256 + 256 * (v / 256 / 256 % 256 +
    256 * (v / 256 / 256 / 256 % 256 + 256 * 0))) = v % 2 ^ 32
  omega

theorem encBytes_length (bd : Nat) (hbd : bd = 16 ∨ bd = 24 ∨ bd = 32) (s : ℚ) :
    (encBytes bd s).length = bd / 8 := by
  rcases hbd with h | h | h <;> rw [h] <;> simp [encBytes, leBytes_length]

/-- Skipping a leading segment of a file moves the slice offset. -/
theorem slice_skip (A B : List Nat) (p q len : Nat) (hA : A.length + q = p) :
    slice (A ++ B) p len = slice B q len := by
  unfold slice
  subst hA
  rw [← List.drop_drop, List.drop_left]

/-- A slice at offset 0 whose length matches the leading segment is that
segment. -/
theorem slice_here (A B : List Nat) (len : Nat) (hA : A.length = len) :
    slice (A ++ B) 0 len = A := by
  unfold slice
  rw [List.drop_zero]
  exact List.take_left' hA

/-- Parsing a file that starts with a serialized header recovers the header
fields, whatever follows the 44 header bytes. -/
theorem wav_get_header_headerBytes (h : wav_header) (rest : List Nat)
    (hnc : h.numChannels < 2 ^ 16) (hsr : h.sampleRate < 2 ^ 32)
    (hbd : h.bitsPerSample < 2 ^ 16) (hds : h.dataSize < 2 ^ 32) :
    wav_get_header (headerBytes h ++ rest) =
      ⟨25, some ⟨h.numChannels,
                 h.dataSize / (h.numChannels * h.bitsPerSample / 8),
                 h.sampleRate, h.bitsPerSample⟩, true, none⟩ := by
  have hsplit : headerBytes h ++ rest =
      [82, 73, 70, 70] ++ (leBytes 4 h.fileSize ++ ([87, 65, 86, 69] ++
        ([102, 109, 116, 32] ++ (leBytes 4 h.cksize ++
          (leBytes 2 h.WAVE_FORMAT_EXTENSIBLE ++ (leBytes 2 h.numChannels ++
            (leBytes 4 h.sampleRate ++ (leBytes 4 h.nAvgBytesPecSec ++
              (leBytes 2 h.nBlockAlign ++ (leBytes 2 h.bitsPerSample ++
                ([100, 97, 116, 97] ++ (leBytes 4 h.dataSize ++ rest)))))))))))) := by
    simp only [headerBytes, List.append_assoc]
  have t0 : slice (headerBytes h ++ rest) 0 4 = [82, 73, 70, 70] := by
    rw [hsplit]
    exact slice_here _ _ 4 rfl
  have t8 : slice (headerBytes h ++ rest) 8 4 = [87, 65, 86, 69] := by
    rw [hsplit,
      slice_skip [82, 73, 70, 70] _ 8 4 4 (by norm_num),
      slice_skip (leBytes 4 h.fileSize) _ 4 0 4 (by simp [leBytes_length])]
    exact slice_here _ _ 4 rfl
  have t12 : slice (headerBytes h ++ rest) 12 4 = [102, 109, 116, 32] := by
    rw [hsplit,
      slice_skip [82, 73, 70, 70] _ 12 8 4 (by norm_num),
      slice_skip (leBytes 4 h.fileSize) _ 8 4 4 (by simp [leBytes_length]),
      slice_skip [87, 65, 86, 69] _ 4 0 4 (by norm_num)]
    exact slice_here _ _ 4 rfl
  have f22 : slice (headerBytes h ++ rest) 22 2 = leBytes 2 h.numChannels := by
    rw [hsplit,
      slice_skip [82, 73, 70, 70] _ 22 18 2 (by norm_num),
      slice_skip (leBytes 4 h.fileSize) _ 18 14 2 (by simp [leBytes_length]),
      slice_skip [87, 65, 86, 69] _ 14 10 2 (by norm_num),
      slice_skip [102, 109, 116, 32] _ 10 6 2 (by norm_num),
      slice_skip (leBytes 4 h.cksize) _ 6 2 2 (by simp [leBytes_length]),
      slice_skip (leBytes 2 h.WAVE_FORMAT_EXTENSIBLE) _ 2 0 2 (by simp [leBytes_length])]
    exact slice_here _ _ 2 (leBytes_length 2 _)
  have f24 : slice (headerBytes h ++ rest) 24 4 = leBytes 4 h.sampleRate := by
    rw [hsplit,
      slice_skip [82, 73, 70, 70] _ 24 20 4 (by norm_num),
      slice_skip (leBytes 4 h.fileSize) _ 20 16 4 (by simp [leBytes_length]),
      slice_skip [87, 65, 86, 69] _ 16 12 4 (by norm_num),
      slice_skip [102, 109, 116, 32] _ 12 8 4 (by norm_num),
      slice_skip (leBytes 4 h.cksize) _ 8 4 4 (by simp [leBytes_length]),
      slice_skip (leBytes 2 h.WAVE_FORMAT_EXTENSIBLE) _ 4 2 4 (by simp [leBytes_length]),
      slice_skip (leBytes 2 h.numChannels) _ 2 0 4 (by simp [leBytes_length])]
    exact slice_here _ _ 4 (leBytes_length 4 _)
  have f34 : slice (headerBytes h ++ rest) 34 2 = leBytes 2 h.bitsPerSample := by
    rw [hsplit,
      slice_skip [82, 73, 70, 70] _ 34 30 2 (by norm_num),
      slice_skip (leBytes 4 h.fileSize) _ 30 26 2 (by simp [leBytes_length]),
      slice_skip [87, 65, 86, 69] _ 26 22 2 (by norm_num),
      slice_skip [102, 109, 116, 32] _ 22 18 2 (by norm_num),
      slice_skip (leBytes 4 h.cksize) _ 18 14 2 (by simp [leBytes_length]),
      slice_skip (leBytes 2 h.WAVE_FORMAT_EXTENSIBLE) _ 14 12 2 (by simp [leBytes_length]),
      slice_skip (leBytes 2 h.numChannels) _ 12 10 2 (by simp [leBytes_length]),
      slice_skip (leBytes 4 h.sampleRate) _ 10 6 2 (by simp [leBytes_length]),
      slice_skip (leBytes 4 h.nAvgBytesPecSec) _ 6 2 2 (by simp [leBytes_length]),
      slice_skip (leBytes 2 h.nBlockAlign) _ 2 0 2 (by simp [leBytes_length])]
    exact slice_here _ _ 2 (leBytes_length 2 _)
  have t36 : slice (headerBytes h ++ rest) 36 4 = [100, 97, 116, 97] := by
    rw [hsplit,
      slice_skip [82, 73, 70, 70] _ 36 32 4 (by norm_num),
      slice_skip (leBytes 4 h.fileSize) _ 32 28 4 (by simp [leBytes_length]),
      slice_skip [87, 65, 86, 69] _ 28 24 4 (by norm_num),
      slice_skip [102, 109, 116, 32] _ 24 20 4 (by norm_num),
      slice_skip (leBytes 4 h.cksize) _ 20 16 4 (by simp [leBytes_length]),
      slice_skip (leBytes 2 h.WAVE_FORMAT_EXTENSIBLE) _ 16 14 4 (by simp [leBytes_length]),
      slice_skip (leBytes 2 h.numChannels) _ 14 12 4 (by simp [leBytes_length]),
      slice_skip (leBytes 4 h.sampleRate) _ 12 8 4 (by simp [leBytes_length]),
      slice_skip (leBytes 4 h.nAvgBytesPecSec) _ 8 4 4 (by simp [leBytes_length]),
      slice_skip (leBytes 2 h.nBlockAlign) _ 4 2 4 (by simp [leBytes_length]),
      slice_skip (leBytes 2 h.bitsPerSample) _ 2 0 4 (by simp [leBytes_length])]
    exact slice_here _ _ 4 rfl
  have f40 : slice (headerBytes h ++ rest) 40 4 = leBytes 4 h.dataSize := by
    rw [hsplit,
      slice_skip [82, 73, 70, 70] _ 40 36 4 (by norm_num),
      slice_skip (leBytes 4 h.fileSize) _ 36 32 4 (by simp [leBytes_length]),
      slice_skip [87, 65, 86, 69] _ 32 28 4 (by norm_num),
      slice_skip [102, 109, 116, 32] _ 28 24 4 (by norm_num),
      slice_skip (leBytes 4 h.cksize) _ 24 20 4 (by simp [leBytes_length]),
      slice_skip (leBytes 2 h.WAVE_FORMAT_EXTENSIBLE) _ 20 18 4 (by simp [leBytes_length]),
      slice_skip (leBytes 2 h.numChannels) _ 18 16 4 (by simp [leBytes_length]),
      slice_skip (leBytes 4 h.sampleRate) _ 16 12 4 (by simp [leBytes_length]),
      slice_skip (leBytes 4 h.nAvgBytesPecSec) _ 12 8 4 (by simp [leBytes_length]),
      slice_skip (leBytes 2 h.nBlockAlign) _ 8 6 4 (by simp [leBytes_length]),
      slice_skip (leBytes 2 h.bitsPerSample) _ 6 4 4 (by simp [leBytes_length]),
      slice_skip [100, 97, 116, 97] _ 4 0 4 (by norm_num)]
    exact slice_here _ _ 4 (leBytes_length 4 _)
  unfold wav_get_header
  rw [t0, t8, t12, t36, f22, f24, f34, f40,
    leVal_leBytes2, leVal_leBytes2, leVal_leBytes4, leVal_leBytes4]
  simp only [Nat.mod_eq_of_lt hnc, Nat.mod_eq_of_lt hsr, Nat.mod_eq_of_lt hbd,
    Nat.mod_eq_of_lt hds, ne_eq, not_true_eq_false, if_false]

/-- Round-trip error of the 16-bit path: encode, mask to the written two
bytes, re-read and decode; at most `1/2^15`, hence within 1e-4. -/
theorem dec16_enc16 (s : ℚ) (h1 : -1 ≤ s) (h2 : s ≤ 1) :
    |dec16 (leVal (leBytes 2 ((enc16 s) % (2 ^ 16 : ℤ)).toNat)) - s| ≤ 1 / 10000 := by
  have hs : |s| ≤ 1 := abs_le.mpr ⟨h1, h2⟩
  have habs : |s * 32768| ≤ 32768 := by
    rw [abs_mul, abs_of_pos (show (0 : ℚ) < 32768 by norm_num)]
    nlinarith [abs_nonneg s]
  have htr := ctrunc_dist (s * 32768)
  have hta := ctrunc_abs_le (s * 32768)
  have htQ : |(ctrunc (s * 32768) : ℚ)| ≤ 32768 := le_trans hta habs
  have hZ : -32768 ≤ ctrunc (s * 32768) ∧ ctrunc (s * 32768) ≤ 32768 := by
    rw [abs_le] at htQ
    exact ⟨by exact_mod_cast htQ.1, by exact_mod_cast htQ.2⟩
  have henc : -32768 ≤ enc16 s ∧ enc16 s ≤ 32767 ∧ |(enc16 s : ℚ) - s * 32768| ≤ 1 := by
    simp only [enc16]
    split_ifs with hlo hhi
    · exact absurd hlo (by omega)
    · have ht32768 : ctrunc (s * 32768) = 32768 := by omega
      refine ⟨by norm_num, le_refl _, ?_⟩
      rw [ht32768] at htr
      rw [abs_lt] at htr
      rw [abs_le] at habs ⊢
      push_cast at htr ⊢
      constructor <;> linarith [habs.2, htr.1, htr.2]
    · exact ⟨by omega, by omega, le_of_lt htr⟩
  set w : Nat := ((enc16 s) % (2 ^ 16 : ℤ)).toNat with hw
  have hlv : leVal (leBytes 2 w) = w := by rw [leVal_leBytes2]; omega
  have hts : toSigned 16 w = enc16 s := by
    unfold toSigned
    split_ifs with hcond <;> omega
  have hdec : dec16 (leVal (leBytes 2 w)) = (enc16 s : ℚ) / 2 ^ 15 := by
    rw [hlv]
    unfold dec16
    rw [hts]
  rw [hdec]
  have key : (enc16 s : ℚ) / 2 ^ 15 - s = ((enc16 s : ℚ) - s * 32768) / 2 ^ 15 := by
    ring
  rw [key, abs_div, abs_of_pos (show (0 : ℚ) < 2 ^ 15 by norm_num)]
  calc |(enc16 s : ℚ) - s * 32768| / 2 ^ 15 ≤ 1 / 2 ^ 15 := by
        gcongr
        exact henc.2.2
    _ ≤ 1 / 10000 := by norm_num

/-- Round-trip error of the 24-bit path with the sign-extending (32-bit
long) decode: at most `3/2^24`, hence within 1e-6. -/
theorem dec24_enc24 (s : ℚ) (h1 : -1 ≤ s) (h2 : s ≤ 1) :
    |dec24 32 (leVal (leBytes 3 (enc24 s))) - s| ≤ 1 / 1000000 := by
  have hs : |s| ≤ 1 := abs_le.mpr ⟨h1, h2⟩
  have habs : |s * 8388607| ≤ 8388607 := by
    rw [abs_mul, abs_of_pos (show (0 : ℚ) < 8388607 by norm_num)]
    nlinarith [abs_nonneg s]
  have hr := lround_dist (s * 8388607)
  have htQ : |(lround (s * 8388607) : ℚ)| ≤ 8388607 + 1 / 2 := by
    have hd := abs_sub_abs_le_abs_sub ((lround (s * 8388607) : ℚ)) (s * 8388607)
    linarith
  have hZ : -8388607 ≤ lround (s * 8388607) ∧ lround (s * 8388607) ≤ 8388607 := by
    rw [abs_le] at htQ
    have hA : (-8388608 : ℤ) < lround (s * 8388607) := by
      have : (-8388608 : ℚ) < (lround (s * 8388607) : ℚ) := by linarith [htQ.1]
      exact_mod_cast this
    have hB : lround (s * 8388607) < (8388608 : ℤ) := by
      have : ((lround (s * 8388607) : ℚ)) < 8388608 := by linarith [htQ.2]
      exact_mod_cast this
    omega
  have hw : enc24 s = ((lround (s * 8388607)) % (2 ^ 24 : ℤ)).toNat := rfl
  have hlv : leVal (leBytes 3 (enc24 s)) = enc24 s := by
    rw [leVal_leBytes3, hw]
    omega
  have hts : toSigned 32 (256 * enc24 s % 2 ^ 32) = 256 * lround (s * 8388607) := by
    unfold toSigned
    rw [hw]
    split_ifs with hcond <;> omega
  have hdec : dec24 32 (leVal (leBytes 3 (enc24 s)))
      = ((256 * lround (s * 8388607) : ℤ) : ℚ) / 2 ^ 31 := by
    rw [hlv]
    unfold dec24
    rw [hts]
  rw [hdec]
  have key : ((256 * lround (s * 8388607) : ℤ) : ℚ) / 2 ^ 31 - s
      = ((lround (s * 8388607) : ℚ) - s * 8388608) / 2 ^ 23 := by
    push_cast
    ring
  rw [key, abs_div, abs_of_pos (show (0 : ℚ) < 2 ^ 23 by norm_num)]
  have hnum : |(lround (s * 8388607) : ℚ) - s * 8388608| ≤ 3 / 2 := by
    have hsplit : (lround (s * 8388607) : ℚ) - s * 8388608
        = ((lround (s * 8388607) : ℚ) - s * 8388607) + (-s) := by ring
    calc |(lround (s * 8388607) : ℚ) - s * 8388608|
        ≤ |(lround (s * 8388607) : ℚ) - s * 8388607| + |(-s)| := by
          rw [hsplit]; exact abs_add _ _
      _ ≤ 1 / 2 + 1 := by rw [abs_neg]; linarith
      _ = 3 / 2 := by norm_num
  calc |(lround (s * 8388607) : ℚ) - s * 8388608| / 2 ^ 23 ≤ (3 / 2) / 2 ^ 23 := by
        gcongr
    _ ≤ 1 / 1000000 := by norm_num

/-- The 32-bit path stores the float bytes verbatim; re-reading them is the
identity on exactly representable samples. -/
theorem dec32_enc32 (longBits : Nat) (s : ℚ) (hrep : Repr32 s) :
    decSample longBits 32 (encBytes 32 s) = s := hrep

/-- One-sample round trip, with the sign-extending 24-bit decode, is within
the bit-depth tolerance of the claim. -/
theorem decSample_encBytes_tol (bd : Nat) (hbd : bd = 16 ∨ bd = 24 ∨ bd = 32)
    (s : ℚ) (h1 : -1 ≤ s) (h2 : s ≤ 1) (h32 : bd = 32 → Repr32 s) :
    |decSample 32 bd (encBytes bd s) - s| ≤ tol bd := by
  rcases hbd with h | h | h <;> subst h
  · exact dec16_enc16 s h1 h2
  · exact dec24_enc24 s h1 h2
  · rw [dec32_enc32 32 s (h32 rfl)]
    simp [tol]

/-- C1 counterexample: the claim quantifies over bit depth 8, but wav_write
of src/src/wav.h rejects bit depth 8 outright (its validation accepts only
16, 24, 32), writes nothing, and the round trip fails at the valid config
(nc 1, ns 1, sr 1, bd 8) with the in-range zero buffer. -/
theorem C1_counterexample :
    validCfg ⟨1, 1, 1, 8⟩ ∧
    (∀ _ch _i : Nat, -1 ≤ (0 : ℚ) ∧ (0 : ℚ) ≤ 1) ∧
    ¬ roundTripOK 32 ⟨1, 1, 1, 8⟩ (fun _ _ => 0) := by
  refine ⟨by decide, fun _ _ => by norm_num, by decide⟩

/-- C1 amended: for every valid AudioConfig whose bit depth is one this
writer supports (16, 24, 32) and whose data size `M * nc * ns` fits in
uint32, and every buffer of samples in [-1, 1] (exactly representable
binary32 values when bd = 32, as a C float buffer guarantees), wav_write
followed by wav_get_header recovers nc, sr, bd and ns exactly, and wav_read
with the recovered config (decoding 24-bit data with the intended
sign-extending 32-bit `long`) returns ns samples per channel, each within
the bit-depth tolerance: 32-bit exact, 24-bit within 1e-6, 16-bit within
1e-4. -/
theorem C1_round_trip (cfg : wav_config) (data : Nat → Nat → ℚ)
    (hv : validCfg cfg)
    (hbd : cfg.bd = 16 ∨ cfg.bd = 24 ∨ cfg.bd = 32)
    (hov : cfg.bd / 8 * cfg.nc * cfg.ns < 2 ^ 32)
    (hdata : ∀ ch, ch < cfg.nc → ∀ i, i < cfg.ns →
      -1 ≤ data ch i ∧ data ch i ≤ 1 ∧ (cfg.bd = 32 → Repr32 (data ch i))) :
    roundTripOK 32 cfg data := by
  obtain ⟨h0, h1, h2, hnc16, hns32, hsr32, -⟩ := hv
  have hM : 0 < cfg.bd / 8 := by rcases hbd with h | h | h <;> rw [h] <;> norm_num
  have hMlen : ∀ s : ℚ, (encBytes cfg.bd s).length = cfg.bd / 8 :=
    encBytes_length cfg.bd hbd
  have hw := wav_write_eq cfg data h0 h1 h2 hbd
  have hplen : (payloadBytes cfg.bd cfg.nc cfg.ns data).length
      = cfg.ns * (cfg.nc * (cfg.bd / 8)) := payloadBytes_length _ _ _ _ _ hMlen
  have hfile : (wav_write cfg data).file.getD []
      = headerBytes (wav_header_new cfg.nc cfg.ns cfg.sr cfg.bd) ++
        (payloadBytes cfg.bd cfg.nc cfg.ns data ++
          padBytes (wav_header_new cfg.nc cfg.ns cfg.sr cfg.bd)) := by
    rw [hw]
    rfl
  have hbd16 : cfg.bd < 2 ^ 16 := by rcases hbd with h | h | h <;> rw [h] <;> norm_num
  have hHnc : (wav_header_new cfg.nc cfg.ns cfg.sr cfg.bd).numChannels = cfg.nc := by
    simp only [wav_header_new]
    omega
  have hHsr : (wav_header_new cfg.nc cfg.ns cfg.sr cfg.bd).sampleRate = cfg.sr := by
    simp only [wav_header_new]
    omega
  have hHbd : (wav_header_new cfg.nc cfg.ns cfg.sr cfg.bd).bitsPerSample = cfg.bd := by
    simp only [wav_header_new]
    omega
  have hHds : (wav_header_new cfg.nc cfg.ns cfg.sr cfg.bd).dataSize
      = cfg.bd / 8 * cfg.nc * cfg.ns := by
    simp only [wav_header_new]
    omega
  have hgh := wav_get_header_headerBytes (wav_header_new cfg.nc cfg.ns cfg.sr cfg.bd)
    (payloadBytes cfg.bd cfg.nc cfg.ns data ++
      padBytes (wav_header_new cfg.nc cfg.ns cfg.sr cfg.bd))
    (by rw [hHnc]; exact hnc16) (by rw [hHsr]; exact hsr32)
    (by rw [hHbd]; exact hbd16) (by rw [hHds]; omega)
  have hdiv : cfg.nc * cfg.bd / 8 = cfg.nc * (cfg.bd / 8) := by
    rcases hbd with h | h | h <;> rw [h] <;> omega
  have hns : (wav_header_new cfg.nc cfg.ns cfg.sr cfg.bd).dataSize /
      (cfg.nc * cfg.bd / 8) = cfg.ns := by
    rw [hHds, hdiv,
      show cfg.bd / 8 * cfg.nc * cfg.ns = cfg.nc * (cfg.bd / 8) * cfg.ns by ring]
    exact Nat.mul_div_cancel_left cfg.ns (Nat.mul_pos h0 hM)
  have hlen : (headerBytes (wav_header_new cfg.nc cfg.ns cfg.sr cfg.bd) ++
      (payloadBytes cfg.bd cfg.nc cfg.ns data ++
        padBytes (wav_header_new cfg.nc cfg.ns cfg.sr cfg.bd))).length
      = 44 + (cfg.ns * (cfg.nc * (cfg.bd / 8)) +
          (padBytes (wav_header_new cfg.nc cfg.ns cfg.sr cfg.bd)).length) := by
    rw [List.length_append, List.length_append, headerBytes_length, hplen]
  unfold roundTripOK
  refine ⟨by rw [hw]; rfl, ?_, ?_, ?_⟩
  · rw [hfile, hgh]
    show some _ = some cfg
    rw [hHnc, hHsr, hHbd, hns]
  · rw [hfile, wav_read_eq 32 cfg _ h0 h1 h2 hbd]
    show min (cfg.ns * cfg.nc) _ / cfg.nc = cfg.ns
    rw [hlen]
    have havail : cfg.ns * cfg.nc ≤
        (44 + (cfg.ns * (cfg.nc * (cfg.bd / 8)) +
          (padBytes (wav_header_new cfg.nc cfg.ns cfg.sr cfg.bd)).length) - 44) /
          (cfg.bd / 8) := by
      rw [Nat.le_div_iff_mul_le hM]
      have : cfg.ns * cfg.nc * (cfg.bd / 8) = cfg.ns * (cfg.nc * (cfg.bd / 8)) := by
        ring
      omega
    rw [min_eq_left havail]
    exact Nat.mul_div_cancel _ h0
  · intro ch hch i hi
    have hout : ((wav_read 32 cfg ((wav_write cfg data).file.getD [])).out.getD
        (fun _ _ => 0)) ch i
        = decSample 32 cfg.bd (slice ((wav_write cfg data).file.getD [])
            (44 + (i * cfg.nc + ch) * (cfg.bd / 8)) (cfg.bd / 8)) := by
      rw [hfile, wav_read_eq 32 cfg _ h0 h1 h2 hbd]
      rfl
    have hk : (i * cfg.nc + ch) * (cfg.bd / 8) + (cfg.bd / 8)
        ≤ (payloadBytes cfg.bd cfg.nc cfg.ns data).length := by
      rw [hplen]
      have hstep : i * cfg.nc + ch + 1 ≤ cfg.ns * cfg.nc := by
        have hx : i * cfg.nc + ch + 1 ≤ (i + 1) * cfg.nc := by
          have : (i + 1) * cfg.nc = i * cfg.nc + cfg.nc := by ring
          omega
        have hy : (i + 1) * cfg.nc ≤ cfg.ns * cfg.nc :=
          Nat.mul_le_mul_right cfg.nc hi
        omega
      calc (i * cfg.nc + ch) * (cfg.bd / 8) + (cfg.bd / 8)
          = (i * cfg.nc + ch + 1) * (cfg.bd / 8) := by ring
        _ ≤ cfg.ns * cfg.nc * (cfg.bd / 8) :=
            Nat.mul_le_mul_right (cfg.bd / 8) hstep
        _ = cfg.ns * (cfg.nc * (cfg.bd / 8)) := by ring
    rw [hout, hfile,
      file_slice _ _ _ (headerBytes_length _) (i * cfg.nc + ch) (cfg.bd / 8) hk,
      payloadBytes_slice cfg.bd cfg.nc cfg.ns data (cfg.bd / 8) hMlen i ch hch hi]
    obtain ⟨ha, hb', hc⟩ := hdata ch hch i hi
    exact decSample_encBytes_tol cfg.bd hbd _ ha hb' hc

/-- Witness for the amended C1 at the config (1, 1, 1, 16) with the constant
1/2 buffer. -/
theorem C1_round_trip_witness : roundTripOK 32 ⟨1, 1, 1, 16⟩ (fun _ _ => 1 / 2) :=
  C1_round_trip ⟨1, 1, 1, 16⟩ (fun _ _ => 1 / 2) (by decide) (Or.inl rfl)
    (by norm_num)
    (fun ch _ i _ => ⟨by norm_num, by norm_num, fun h => by exact absurd h (by decide)⟩)

end Img2Wav
